import Mathlib

/-!
Verification of the persistence layer of a payment-node daemon.

The Rust sources embedded here are `src/database.rs` (the SeaORM-backed
`DatabaseManager` with its five tables and the rgb-config write-through
cache), `src/db.rs` (the rusqlite-backed encrypted-mnemonic store), and
`src/disk.rs` (the read-or-default codec helpers).  Tables are modelled as
lists of rows carrying their auto-increment surrogate ids; the schema uses
AUTOINCREMENT (`pk_auto` in the migrations), so fresh ids come from a
monotone counter and are never reused.  Fallible backend statements take an
explicit success flag: a failed statement returns an error and leaves the
store unchanged (single-statement atomicity of the engine), which is how
the Rust `?`-propagation behaves.  Each operation returns its result
together with the post-state, mirroring a Rust method returning
`Result<_, APIError>` on `&self`.
-/

set_option autoImplicit false

namespace RLN

/-- Error taxonomy of `src/error.rs` as used by the persistence layer
(`APIError` variants reachable from `database.rs` and `db.rs`). -/
inductive APIError where
  | DatabaseError (msg : String)
  | NotInitialized
  | AlreadyInitialized
  | InvalidPeerInfo (msg : String)
  | WrongPassword
  | IOFailure (msg : String)
  | Unexpected (msg : String)
  deriving Repr, DecidableEq

/-- Row of the `mnemonic` table of `database.rs` (surrogate id plus the
encrypted payload string). -/
structure MnemonicRow where
  id : Nat
  encrypted_mnemonic : String
  deriving Repr, DecidableEq

/-- Row of the `channel_peer_data` table (`src/entities`, unique public key). -/
structure ChannelPeerRow where
  id : Nat
  public_key : String
  socket_addr : String
  deriving Repr, DecidableEq

/-- Row of the `rgb_config` table (`src/entities/rgb_config.rs`, unique key). -/
structure RgbConfigRow where
  id : Nat
  key : String
  value : String
  deriving Repr, DecidableEq

/-- Row of the `channel_ids` table (`src/entities/channel_ids.rs`, unique
hex-encoded temporary channel id). -/
structure ChannelIdsRow where
  id : Nat
  temporary_channel_id : String
  channel_id : String
  deriving Repr, DecidableEq

/-- Row of the `revoked_token` table (`src/entities/revoked_token.rs`,
unique hex-encoded revocation id). -/
structure RevokedTokenRow where
  id : Nat
  revocation_id : String
  deriving Repr, DecidableEq

/-- The relational store owned by `DatabaseManager`: one list of rows per
table, in rowid order, plus the AUTOINCREMENT counter of each table. -/
structure DbState where
  mnemonicRows : List MnemonicRow
  mnemonicNextId : Nat
  peerRows : List ChannelPeerRow
  peerNextId : Nat
  configRows : List RgbConfigRow
  configNextId : Nat
  channelIdsRows : List ChannelIdsRow
  channelIdsNextId : Nat
  revokedRows : List RevokedTokenRow
  revokedNextId : Nat
  deriving Repr, DecidableEq

/-- The fresh store produced by `DatabaseManager::new` after migrations:
every table empty, every AUTOINCREMENT counter at 1. -/
def DbState.empty : DbState :=
  ⟨[], 1, [], 1, [], 1, [], 1, [], 1⟩

/-- `DatabaseManager::save_mnemonic` (database.rs lines 50-69):
`Mnemonic::delete_many()` clears every row, then one row with the given
payload is inserted under a fresh id.  `delOk` and `insOk` are the success
flags of the two backend statements; a failed statement leaves the store
unchanged and the error propagates. -/
def save_mnemonic (st : DbState) (encrypted_mnemonic : String)
    (delOk insOk : Bool) : Except APIError Unit × DbState :=
  if ¬delOk then
    (Except.error (APIError.DatabaseError "delete failed"), st)
  else
    let cleared := { st with mnemonicRows := [] }
    if ¬insOk then
      (Except.error (APIError.DatabaseError "insert failed"), cleared)
    else
      (Except.ok (),
        { cleared with
          mnemonicRows := [⟨st.mnemonicNextId, encrypted_mnemonic⟩],
          mnemonicNextId := st.mnemonicNextId + 1 })

/-- `DatabaseManager::load_mnemonic` (database.rs lines 71-81):
`Mnemonic::find().one(..)` returns the first row in rowid order; zero rows
yield `APIError::NotInitialized`. -/
def load_mnemonic (st : DbState) (findOk : Bool) : Except APIError String :=
  if ¬findOk then
    Except.error (APIError.DatabaseError "find failed")
  else
    match st.mnemonicRows.head? with
    | none => Except.error APIError.NotInitialized
    | some row => Except.ok row.encrypted_mnemonic

/-- C1.  Singleton secret save is idempotent and last-write-wins: saving
`m1` then `m2` leaves exactly one row after each save (each save clears
all rows then inserts exactly one), and `load_mnemonic` after the second
save returns `m2`, not `m1`. -/
theorem save_mnemonic_singleton_last_write_wins
    (st : DbState) (m1 m2 : String) :
    let r1 := save_mnemonic st m1 true true
    let r2 := save_mnemonic r1.2 m2 true true
    r1.1 = Except.ok () ∧
    r1.2.mnemonicRows = [⟨st.mnemonicNextId, m1⟩] ∧
    r2.1 = Except.ok () ∧
    r2.2.mnemonicRows = [⟨r1.2.mnemonicNextId, m2⟩] ∧
    load_mnemonic r2.2 true = Except.ok m2 ∧
    (m1 ≠ m2 → load_mnemonic r2.2 true ≠ Except.ok m1) := by
  refine ⟨rfl, rfl, rfl, rfl, rfl, ?_⟩
  intro hne hcontra
  simp only [save_mnemonic, load_mnemonic] at hcontra
  simp at hcontra
  exact hne hcontra.symm

/-- Witness for C1 at a concrete store and concrete distinct payloads. -/
theorem save_mnemonic_singleton_last_write_wins_witness :
    let st := DbState.empty
    let r1 := save_mnemonic st "enc-one" true true
    let r2 := save_mnemonic r1.2 "enc-two" true true
    r2.2.mnemonicRows = [⟨2, "enc-two"⟩] ∧
    load_mnemonic r2.2 true = Except.ok "enc-two" ∧
    load_mnemonic r2.2 true ≠ Except.ok "enc-one" := by
  have h := save_mnemonic_singleton_last_write_wins DbState.empty "enc-one" "enc-two"
  exact ⟨h.2.2.2.1, h.2.2.2.2.1, h.2.2.2.2.2 (by decide)⟩

/-- Replace-or-append association map insert, the model of
`HashMap::insert`: the first binding of the key is overwritten in place,
an absent key is appended. -/
def insertAssoc {κ α : Type} [DecidableEq κ] :
    List (κ × α) → κ → α → List (κ × α)
  | [], k, v => [(k, v)]
  | p :: rest, k, v =>
      if p.1 = k then (k, v) :: rest else p :: insertAssoc rest k v

/-- Association map lookup, the model of `HashMap::get`. -/
def lookupAssoc {κ α : Type} [DecidableEq κ] :
    List (κ × α) → κ → Option α
  | [], _ => none
  | p :: rest, k => if p.1 = k then some p.2 else lookupAssoc rest k

theorem lookupAssoc_insertAssoc_self {κ α : Type} [DecidableEq κ]
    (m : List (κ × α)) (k : κ) (v : α) :
    lookupAssoc (insertAssoc m k v) k = some v := by
  induction m with
  | nil => simp [insertAssoc, lookupAssoc]
  | cons p rest ih =>
      by_cases h : p.1 = k
      · simp [insertAssoc, lookupAssoc, h]
      · simp [insertAssoc, lookupAssoc, h, ih]

theorem lookupAssoc_insertAssoc_ne {κ α : Type} [DecidableEq κ]
    (m : List (κ × α)) (k k' : κ) (v : α) (hne : k ≠ k') :
    lookupAssoc (insertAssoc m k v) k' = lookupAssoc m k' := by
  induction m with
  | nil => simp [insertAssoc, lookupAssoc, hne]
  | cons p rest ih =>
      by_cases h : p.1 = k
      · simp [insertAssoc, lookupAssoc, h, hne]
      · simp only [insertAssoc, lookupAssoc, h, if_false]
        by_cases h' : p.1 = k'
        · simp [h']
        · simp [h', ih]

/-- `DatabaseManager::save_channel_peer` (database.rs lines 94-122):
`delete_many` removes every row whose `public_key` equals the given key,
then a fresh row is inserted under a new auto-increment id.  This is
delete-then-insert, not an in-place update. -/
def save_channel_peer (st : DbState) (pubkey address : String)
    (delOk insOk : Bool) : Except APIError Unit × DbState :=
  if ¬delOk then
    (Except.error (APIError.DatabaseError "delete failed"), st)
  else
    let cleared :=
      { st with peerRows := st.peerRows.filter (fun r => r.public_key ≠ pubkey) }
    if ¬insOk then
      (Except.error (APIError.DatabaseError "insert failed"), cleared)
    else
      (Except.ok (),
        { cleared with
          peerRows := cleared.peerRows ++ [⟨st.peerNextId, pubkey, address⟩],
          peerNextId := st.peerNextId + 1 })

/-- Interior loop of `DatabaseManager::load_channel_peers` (database.rs
lines 132-143): rows are visited in rowid order, each key and address is
parsed, the first parse failure aborts the whole load with
`APIError::InvalidPeerInfo`, successes are inserted into the map. -/
def load_channel_peers_go {α β : Type} [DecidableEq α]
    (parsePk : String → Option α) (parseAddr : String → Option β) :
    List ChannelPeerRow → List (α × β) → Except APIError (List (α × β))
  | [], acc => Except.ok acc
  | row :: rest, acc =>
      match parsePk row.public_key with
      | none => Except.error (APIError.InvalidPeerInfo "Invalid public key")
      | some pk =>
          match parseAddr row.socket_addr with
          | none => Except.error (APIError.InvalidPeerInfo "Invalid socket address")
          | some ad => load_channel_peers_go parsePk parseAddr rest (insertAssoc acc pk ad)

/-- `DatabaseManager::load_channel_peers` (database.rs lines 124-147).
The `PublicKey` and `SocketAddr` parsers live in external crates
(secp256k1 and std), so the embedding is parametric in them. -/
def load_channel_peers {α β : Type} [DecidableEq α]
    (parsePk : String → Option α) (parseAddr : String → Option β)
    (st : DbState) (findOk : Bool) : Except APIError (List (α × β)) :=
  if ¬findOk then
    Except.error (APIError.DatabaseError "find failed")
  else
    load_channel_peers_go parsePk parseAddr st.peerRows []

/-- The in-memory rgb-config cache plus the store: the fields of the Rust
`DatabaseManager` struct (database.rs lines 19-23). -/
structure DatabaseManager where
  db : DbState
  rgb_config_cache : List (String × Option String)
  deriving Repr, DecidableEq

/-- `DatabaseManager::save_rgb_config` (database.rs lines 167-203): look
the key up in the store; update the existing row in place or insert a
fresh one; only after the store write succeeded is the cache entry
overwritten with the new value.  `findOk` and `writeOk` are the success
flags of the two backend statements. -/
def save_rgb_config (m : DatabaseManager) (key value : String)
    (findOk writeOk : Bool) : Except APIError Unit × DatabaseManager :=
  if ¬findOk then
    (Except.error (APIError.DatabaseError "find failed"), m)
  else
    let existing := m.db.configRows.find? (fun r => r.key = key)
    if ¬writeOk then
      (Except.error (APIError.DatabaseError "write failed"), m)
    else
      let db' :=
        match existing with
        | some _ =>
            { m.db with
              configRows :=
                m.db.configRows.map
                  (fun r => if r.key = key then { r with value := value } else r) }
        | none =>
            { m.db with
              configRows := m.db.configRows ++ [⟨m.db.configNextId, key, value⟩],
              configNextId := m.db.configNextId + 1 }
      (Except.ok (),
        { db := db',
          rgb_config_cache := insertAssoc m.rgb_config_cache key (some value) })

/-- `DatabaseManager::load_rgb_config` (database.rs lines 205-230): the
cache is consulted first and a hit (present or negative) is returned
without touching the store; on a miss the store is read and the result,
present or absent, is cached.  The third component records whether the
store was read. -/
def load_rgb_config (m : DatabaseManager) (key : String) (findOk : Bool) :
    Except APIError (Option String) × DatabaseManager × Bool :=
  match lookupAssoc m.rgb_config_cache key with
  | some cached => (Except.ok cached, m, false)
  | none =>
      if ¬findOk then
        (Except.error (APIError.DatabaseError "find failed"), m, true)
      else
        let v := (m.db.configRows.find? (fun r => r.key = key)).map (fun r => r.value)
        (Except.ok v,
          { m with rgb_config_cache := insertAssoc m.rgb_config_cache key v },
          true)

/-- C3.  Cache round-trip: after a successful `save_rgb_config k v`, an
immediate `load_rgb_config k` returns `Some v` from the cache without any
store read, whatever the state of the store backend. -/
theorem save_then_load_rgb_config_cache_hit
    (m : DatabaseManager) (key value : String) (findOk : Bool) :
    let r := save_rgb_config m key value true true
    r.1 = Except.ok () ∧
    load_rgb_config r.2 key findOk = (Except.ok (some value), r.2, false) := by
  intro r
  have hlook : lookupAssoc r.2.rgb_config_cache key = some (some value) := by
    show lookupAssoc (save_rgb_config m key value true true).2.rgb_config_cache key = _
    simp only [save_rgb_config]
    cases hfind : m.db.configRows.find? (fun r => r.key = key) <;>
      simp [hfind, lookupAssoc_insertAssoc_self]
  constructor
  · show (save_rgb_config m key value true true).1 = Except.ok ()
    simp only [save_rgb_config]
    cases hfind : m.db.configRows.find? (fun r => r.key = key) <;> simp [hfind]
  · simp [load_rgb_config, hlook]

/-- Witness for C3 at a concrete manager, key and value. -/
theorem save_then_load_rgb_config_cache_hit_witness :
    let m : DatabaseManager := ⟨DbState.empty, []⟩
    let r := save_rgb_config m "indexer_url" "127.0.0.1:50001" true true
    load_rgb_config r.2 "indexer_url" false =
      (Except.ok (some "127.0.0.1:50001"), r.2, false) :=
  (save_then_load_rgb_config_cache_hit ⟨DbState.empty, []⟩
    "indexer_url" "127.0.0.1:50001" false).2

/-- C4.  Cache atomicity on store failure: if any backend statement inside
`save_rgb_config` fails (the lookup or the write), the call returns an
error and the whole manager — cache included — is unchanged; the cache is
touched only after the store write has succeeded. -/
theorem save_rgb_config_store_failure_leaves_cache
    (m : DatabaseManager) (key value : String) (findOk writeOk : Bool)
    (h : findOk = false ∨ writeOk = false) :
    let r := save_rgb_config m key value findOk writeOk
    (∃ e, r.1 = Except.error (APIError.DatabaseError e)) ∧ r.2 = m := by
  intro r
  rcases h with h | h <;> subst h
  · exact ⟨⟨"find failed", rfl⟩, rfl⟩
  · show (∃ e, (save_rgb_config m key value findOk false).1 =
        Except.error (APIError.DatabaseError e)) ∧
      (save_rgb_config m key value findOk false).2 = m
    cases findOk
    · exact ⟨⟨"find failed", rfl⟩, rfl⟩
    · exact ⟨⟨"write failed", rfl⟩, rfl⟩

/-- Witness for C4 at a concrete manager with a failing store write. -/
theorem save_rgb_config_store_failure_leaves_cache_witness :
    let m : DatabaseManager := ⟨DbState.empty, [("proxy_endpoint", some "old")]⟩
    let r := save_rgb_config m "proxy_endpoint" "new" true false
    (∃ e, r.1 = Except.error (APIError.DatabaseError e)) ∧ r.2 = m :=
  save_rgb_config_store_failure_leaves_cache
    ⟨DbState.empty, [("proxy_endpoint", some "old")]⟩
    "proxy_endpoint" "new" true false (Or.inr rfl)

theorem filter_eq_key_after_filter_ne (l : List ChannelPeerRow) (pk : String) :
    (l.filter (fun r => r.public_key ≠ pk)).filter (fun r => r.public_key = pk) = [] := by
  induction l with
  | nil => rfl
  | cons hd tl ih =>
      by_cases h : hd.public_key = pk <;> simp [List.filter_cons, h, ih]

/-- C2 counterexample.  The claim asserts that `save_channel_peer` on an
already-stored public key mutates the row in place, preserving its
surrogate id.  On the store holding exactly one row for pk1 with id 1
(auto-increment counter at 2), saving pk1 with a new address leaves a
single row for pk1 whose id is 2 — the old id 1 is gone, because the code
deletes and re-inserts rather than updating. -/
theorem save_channel_peer_id_not_preserved_counterexample :
    let st : DbState :=
      { DbState.empty with peerRows := [⟨1, "pk1", "addr1"⟩], peerNextId := 2 }
    let r := save_channel_peer st "pk1" "addr2" true true
    (∃ row ∈ st.peerRows, row.public_key = "pk1" ∧ row.id = 1) ∧
    r.1 = Except.ok () ∧
    r.2.peerRows = [⟨2, "pk1", "addr2"⟩] ∧
    ¬ ∃ row ∈ r.2.peerRows, row.public_key = "pk1" ∧ row.id = 1 := by
  refine ⟨⟨⟨1, "pk1", "addr1"⟩, by simp, rfl, rfl⟩, rfl, rfl, ?_⟩
  decide

/-- C2 amended.  `save_channel_peer` replaces by delete-then-insert:
afterwards exactly one row for the key exists, carrying the new address
under a freshly assigned surrogate id (the auto-increment counter value),
which differs from every id the key had before. -/
theorem save_channel_peer_upsert_fresh_id
    (st : DbState) (pubkey a2 : String)
    (hfresh : ∀ row ∈ st.peerRows, row.id < st.peerNextId) :
    (save_channel_peer st pubkey a2 true true).1 = Except.ok () ∧
    (save_channel_peer st pubkey a2 true true).2.peerRows.filter
      (fun row => row.public_key = pubkey) = [⟨st.peerNextId, pubkey, a2⟩] ∧
    ∀ row ∈ st.peerRows, row.public_key = pubkey → row.id ≠ st.peerNextId := by
  refine ⟨rfl, ?_, ?_⟩
  · have hstep :
        (save_channel_peer st pubkey a2 true true).2.peerRows =
          st.peerRows.filter (fun r => r.public_key ≠ pubkey) ++
            [⟨st.peerNextId, pubkey, a2⟩] := rfl
    rw [hstep, List.filter_append, filter_eq_key_after_filter_ne]
    simp [List.filter_cons]
  · intro row hrow _ hid
    exact absurd hid (Nat.ne_of_lt (hfresh row hrow))

/-- Witness for the amended C2 at a concrete two-row store: the peer being
re-saved keeps exactly one row, with the new address and a fresh id. -/
theorem save_channel_peer_upsert_fresh_id_witness :
    (save_channel_peer
      { DbState.empty with
        peerRows := [⟨1, "pk1", "addr1"⟩, ⟨2, "pk2", "addr9"⟩], peerNextId := 3 }
      "pk1" "addr2" true true).2.peerRows.filter
        (fun row => row.public_key = "pk1") = [⟨3, "pk1", "addr2"⟩] :=
  (save_channel_peer_upsert_fresh_id
    { DbState.empty with
      peerRows := [⟨1, "pk1", "addr1"⟩, ⟨2, "pk2", "addr9"⟩], peerNextId := 3 }
    "pk1" "addr2" (by decide)).2.1

/-- `DatabaseManager::save_revoked_token` (database.rs lines 378-405):
look the revocation id up first; if a row already exists, return success
without writing anything; otherwise insert a fresh row. -/
def save_revoked_token (st : DbState) (revocation_id_hex : String)
    (findOk insOk : Bool) : Except APIError Unit × DbState :=
  if ¬findOk then
    (Except.error (APIError.DatabaseError "find failed"), st)
  else
    match st.revokedRows.find? (fun r => r.revocation_id = revocation_id_hex) with
    | some _ => (Except.ok (), st)
    | none =>
        if ¬insOk then
          (Except.error (APIError.DatabaseError "insert failed"), st)
        else
          (Except.ok (),
            { st with
              revokedRows := st.revokedRows ++ [⟨st.revokedNextId, revocation_id_hex⟩],
              revokedNextId := st.revokedNextId + 1 })

/-- A successful sequence of `save_revoked_token` calls. -/
def applySavesRevoked (st : DbState) (rids : List String) : DbState :=
  rids.foldl (fun s rid => (save_revoked_token s rid true true).2) st

/-- No two rows of the revoked-token table share a revocation id. -/
def RevokedDedup (rows : List RevokedTokenRow) : Prop :=
  rows.Pairwise (fun a b => a.revocation_id ≠ b.revocation_id)

theorem find?_append_of_none {α : Type} (p : α → Bool) (l1 l2 : List α)
    (h : l1.find? p = none) : (l1 ++ l2).find? p = l2.find? p := by
  induction l1 with
  | nil => rfl
  | cons a tl ih =>
      cases hp : p a
      · rw [List.find?_cons_of_neg _ (by simp [hp])] at h
        rw [List.cons_append, List.find?_cons_of_neg _ (by simp [hp])]
        exact ih h
      · rw [List.find?_cons_of_pos _ hp] at h
        cases h

theorem save_revoked_token_of_present (st : DbState) (rid : String) (insOk : Bool)
    (h : (st.revokedRows.find? (fun r => r.revocation_id = rid)).isSome) :
    save_revoked_token st rid true insOk = (Except.ok (), st) := by
  cases hf : st.revokedRows.find? (fun r => r.revocation_id = rid) with
  | none => rw [hf] at h; simp at h
  | some row => simp [save_revoked_token, hf]

theorem save_revoked_token_mem (st : DbState) (rid : String) :
    ((save_revoked_token st rid true true).2.revokedRows.find?
      (fun r => r.revocation_id = rid)).isSome := by
  cases hf : st.revokedRows.find? (fun r => r.revocation_id = rid) with
  | some row => simp [save_revoked_token, hf]
  | none =>
      simp only [save_revoked_token, not_true, if_false, hf,
        Bool.not_true, Bool.false_eq_true]
      rw [find?_append_of_none _ _ _ hf]
      simp [List.find?_cons]

theorem save_revoked_token_dedup_step (st : DbState) (rid : String)
    (h : RevokedDedup st.revokedRows) :
    RevokedDedup (save_revoked_token st rid true true).2.revokedRows := by
  cases hf : st.revokedRows.find? (fun r => r.revocation_id = rid) with
  | some row => simpa [save_revoked_token, hf] using h
  | none =>
      have hnone := List.find?_eq_none.mp hf
      simp only [save_revoked_token, not_true, if_false, hf,
        Bool.not_true, Bool.false_eq_true]
      unfold RevokedDedup
      rw [List.pairwise_append]
      refine ⟨h, List.pairwise_singleton _ _, ?_⟩
      intro a ha b hb
      simp only [List.mem_singleton] at hb
      subst hb
      have := hnone a ha
      simpa using this

/-- C9.  Revoked-credential insert is insert-if-absent: a save whose id is
already stored returns success without writing (even a broken insert
statement is never reached), a repeated save leaves the store unchanged,
and any successful sequence of saves keeps at most one row per
identifier. -/
theorem save_revoked_token_idempotent
    (st : DbState) (rid : String) (rids : List String)
    (hdedup : RevokedDedup st.revokedRows) :
    ((st.revokedRows.find? (fun r => r.revocation_id = rid)).isSome →
      ∀ insOk, save_revoked_token st rid true insOk = (Except.ok (), st)) ∧
    save_revoked_token (save_revoked_token st rid true true).2 rid true true =
      (Except.ok (), (save_revoked_token st rid true true).2) ∧
    RevokedDedup (applySavesRevoked st rids).revokedRows := by
  refine ⟨?_, ?_, ?_⟩
  · intro hpresent insOk
    exact save_revoked_token_of_present st rid insOk hpresent
  · exact save_revoked_token_of_present _ rid true (save_revoked_token_mem st rid)
  · induction rids generalizing st with
    | nil => exact hdedup
    | cons r rest ih =>
        exact ih _ (save_revoked_token_dedup_step st r hdedup)

/-- Witness for C9: on a store already holding the id, a repeated save is
a no-op success, and a two-save sequence keeps the table duplicate-free. -/
theorem save_revoked_token_idempotent_witness :
    let st : DbState :=
      { DbState.empty with revokedRows := [⟨1, "aa"⟩], revokedNextId := 2 }
    save_revoked_token st "aa" true false = (Except.ok (), st) ∧
    RevokedDedup (applySavesRevoked st ["bb", "aa"]).revokedRows := by
  have h := save_revoked_token_idempotent
    { DbState.empty with revokedRows := [⟨1, "aa"⟩], revokedNextId := 2 }
    "aa" ["bb", "aa"] (by unfold RevokedDedup; decide)
  exact ⟨h.1 (by decide) false, h.2.2⟩

/-- Modelled from the spec: `crate::utils` is not under `src/`.  The spec
(§3, ChannelIdMapping and RevokedCredential) says identifiers are
hex-encoded at rest and decoded back to raw bytes on read, with malformed
entries detected.  Standard hexadecimal digit value, accepting both
cases. -/
def hexDigitVal (c : Char) : Option Nat :=
  if '0' ≤ c ∧ c ≤ '9' then some (c.toNat - '0'.toNat)
  else if 'a' ≤ c ∧ c ≤ 'f' then some (c.toNat - 'a'.toNat + 10)
  else if 'A' ≤ c ∧ c ≤ 'F' then some (c.toNat - 'A'.toNat + 10)
  else none

/-- Modelled from the spec: byte-pair decoding of a hex character stream;
an odd-length tail or a non-hex character makes the whole decode fail. -/
def hexPairsToBytes : List Char → Option (List Nat)
  | [] => some []
  | [_] => none
  | c1 :: c2 :: rest =>
      match hexDigitVal c1, hexDigitVal c2, hexPairsToBytes rest with
      | some hi, some lo, some bs => some ((16 * hi + lo) :: bs)
      | _, _, _ => none

/-- Modelled from the spec: `crate::utils::hex_str_to_vec`, the
hex-to-bytes decoder used by the bulk loaders; returns `None` on any
malformed input. -/
def hex_str_to_vec (s : String) : Option (List Nat) :=
  hexPairsToBytes s.data

/-- Modelled from the spec: lowercase hexadecimal digit character. -/
def hexDigitChar (n : Nat) : Char :=
  if n < 10 then Char.ofNat (Char.toNat '0' + n)
  else Char.ofNat (Char.toNat 'a' + n - 10)

/-- Modelled from the spec: `crate::utils::hex_str`, the bytes-to-lowercase
hex encoder used when writing channel ids at rest. -/
def hex_str (bytes : List Nat) : String :=
  ⟨(bytes.map (fun b => [hexDigitChar (b / 16 % 16), hexDigitChar (b % 16)])).flatten⟩

/-- Per-row validation of `DatabaseManager::load_channel_ids` (database.rs
lines 485-513): both fields must hex-decode, and both byte vectors must
have length exactly 32; otherwise the row is skipped. -/
def decodeChannelIdsRow (row : ChannelIdsRow) : Option (List Nat × List Nat) :=
  match hex_str_to_vec row.temporary_channel_id with
  | none => none
  | some temp_id_bytes =>
      match hex_str_to_vec row.channel_id with
      | none => none
      | some chan_id_bytes =>
          if temp_id_bytes.length ≠ 32 ∨ chan_id_bytes.length ≠ 32 then none
          else some (temp_id_bytes, chan_id_bytes)

/-- One iteration of the `load_channel_ids` loop: a malformed row leaves
the accumulated map unchanged, a well-formed one is inserted. -/
def channelIdsStep (acc : List (List Nat × List Nat)) (row : ChannelIdsRow) :
    List (List Nat × List Nat) :=
  match decodeChannelIdsRow row with
  | none => acc
  | some q => insertAssoc acc q.1 q.2

/-- `DatabaseManager::load_channel_ids` (database.rs lines 475-522). -/
def load_channel_ids (st : DbState) (findOk : Bool) :
    Except APIError (List (List Nat × List Nat)) :=
  if ¬findOk then Except.error (APIError.DatabaseError "find failed")
  else Except.ok (st.channelIdsRows.foldl channelIdsStep [])

theorem decodeChannelIdsRow_lengths (row : ChannelIdsRow)
    (p : List Nat × List Nat) (h : decodeChannelIdsRow row = some p) :
    p.1.length = 32 ∧ p.2.length = 32 := by
  cases h1 : hex_str_to_vec row.temporary_channel_id with
  | none => simp [decodeChannelIdsRow, h1] at h
  | some tb =>
      cases h2 : hex_str_to_vec row.channel_id with
      | none => simp [decodeChannelIdsRow, h1, h2] at h
      | some cb =>
          simp only [decodeChannelIdsRow, h1, h2] at h
          by_cases hlen : tb.length ≠ 32 ∨ cb.length ≠ 32
          · rw [if_pos hlen] at h; cases h
          · rw [if_neg hlen] at h
            cases h
            push_neg at hlen
            exact ⟨hlen.1, hlen.2⟩

theorem insertAssoc_of_forall_ne {κ α : Type} [DecidableEq κ]
    (m : List (κ × α)) (k : κ) (v : α) (h : ∀ p ∈ m, p.1 ≠ k) :
    insertAssoc m k v = m ++ [(k, v)] := by
  induction m with
  | nil => rfl
  | cons p rest ih =>
      have hp : p.1 ≠ k := h p (List.mem_cons_self _ _)
      simp only [insertAssoc, if_neg hp, List.cons_append]
      rw [ih (fun q hq => h q (List.mem_cons_of_mem _ hq))]

theorem foldl_channelIdsStep_eq (rows : List ChannelIdsRow)
    (acc : List (List Nat × List Nat))
    (hacc : ∀ p ∈ acc, ∀ q ∈ rows.filterMap decodeChannelIdsRow, p.1 ≠ q.1)
    (hrows : (rows.filterMap decodeChannelIdsRow).Pairwise (fun a b => a.1 ≠ b.1)) :
    rows.foldl channelIdsStep acc = acc ++ rows.filterMap decodeChannelIdsRow := by
  induction rows generalizing acc with
  | nil => simp
  | cons row rest ih =>
      cases hdec : decodeChannelIdsRow row with
      | none =>
          have hstep : channelIdsStep acc row = acc := by
            simp [channelIdsStep, hdec]
          have hfm : (row :: rest).filterMap decodeChannelIdsRow =
              rest.filterMap decodeChannelIdsRow := by
            simp [List.filterMap_cons, hdec]
          rw [List.foldl_cons, hstep, hfm]
          rw [hfm] at hacc hrows
          exact ih acc hacc hrows
      | some q =>
          have hfm : (row :: rest).filterMap decodeChannelIdsRow =
              q :: rest.filterMap decodeChannelIdsRow := by
            simp [List.filterMap_cons, hdec]
          rw [hfm] at hacc hrows
          rw [List.pairwise_cons] at hrows
          have hstep : channelIdsStep acc row = acc ++ [q] := by
            simp only [channelIdsStep, hdec]
            exact insertAssoc_of_forall_ne acc q.1 q.2
              (fun p hp => hacc p hp q (List.mem_cons_self _ _))
          have hacc2 : ∀ p ∈ acc ++ [q],
              ∀ q' ∈ rest.filterMap decodeChannelIdsRow, p.1 ≠ q'.1 := by
            intro p hp q' hq'
            rcases List.mem_append.mp hp with hpin | hpq
            · exact hacc p hpin q' (List.mem_cons_of_mem _ hq')
            · simp only [List.mem_singleton] at hpq
              subst hpq
              exact hrows.1 q' hq'
          rw [List.foldl_cons, hstep, hfm, ih (acc ++ [q]) hacc2 hrows.2]
          simp

/-- C5.  Malformed channel-id-mapping tolerance: `load_channel_ids` never
fails because of row contents, and (when the decoded keys are distinct,
which the unique column guarantees for rows the node itself wrote) the
loaded map holds exactly the rows whose two fields hex-decode to exactly
32 bytes — so every entry has 32-byte keys and values and the fixed-size
conversion in the loader cannot fail; all other rows are skipped. -/
theorem load_channel_ids_skips_malformed (st : DbState) :
    (∃ m, load_channel_ids st true = Except.ok m) ∧
    ((st.channelIdsRows.filterMap decodeChannelIdsRow).Pairwise
        (fun a b => a.1 ≠ b.1) →
      load_channel_ids st true =
        Except.ok (st.channelIdsRows.filterMap decodeChannelIdsRow) ∧
      ∀ p ∈ st.channelIdsRows.filterMap decodeChannelIdsRow,
        p.1.length = 32 ∧ p.2.length = 32) := by
  constructor
  · exact ⟨_, rfl⟩
  · intro hdist
    constructor
    · show Except.ok (st.channelIdsRows.foldl channelIdsStep []) = _
      rw [foldl_channelIdsStep_eq st.channelIdsRows [] (by intro p hp; cases hp) hdist]
      rw [List.nil_append]
    · intro p hp
      rcases List.mem_filterMap.mp hp with ⟨row, _, hdec⟩
      exact decodeChannelIdsRow_lengths row p hdec

/-- Witness for C5: a store holding one well-formed row (64 hex digits in
each field), one row whose hex is too short, and one row with non-hex
content loads successfully into a map with exactly the well-formed
entry. -/
theorem load_channel_ids_skips_malformed_witness :
    let z64 := "0000000000000000000000000000000000000000000000000000000000000000"
    let stW : DbState :=
      { DbState.empty with
        channelIdsRows := [⟨1, z64, z64⟩, ⟨2, "abcd", z64⟩, ⟨3, "zz", z64⟩],
        channelIdsNextId := 4 }
    load_channel_ids stW true =
      Except.ok [(List.replicate 32 0, List.replicate 32 0)] := by
  intro z64 stW
  have h := (load_channel_ids_skips_malformed stW).2 (by decide)
  exact h.1.trans (by rfl)

theorem load_channel_peers_go_error {α β : Type} [DecidableEq α]
    (parsePk : String → Option α) (parseAddr : String → Option β)
    (rows : List ChannelPeerRow) (acc : List (α × β))
    (hbad : ∃ row ∈ rows,
      parsePk row.public_key = none ∨ parseAddr row.socket_addr = none) :
    ∃ msg, load_channel_peers_go parsePk parseAddr rows acc =
      Except.error (APIError.InvalidPeerInfo msg) := by
  induction rows generalizing acc with
  | nil => rcases hbad with ⟨row, hmem, _⟩; cases hmem
  | cons row rest ih =>
      cases hpk : parsePk row.public_key with
      | none => exact ⟨"Invalid public key", by simp [load_channel_peers_go, hpk]⟩
      | some pk =>
          cases haddr : parseAddr row.socket_addr with
          | none =>
              exact ⟨"Invalid socket address",
                by simp [load_channel_peers_go, hpk, haddr]⟩
          | some ad =>
              rcases hbad with ⟨r, hmem, hb⟩
              rcases List.mem_cons.mp hmem with hr | hr
              · subst hr
                rcases hb with hb | hb
                · rw [hpk] at hb; cases hb
                · rw [haddr] at hb; cases hb
              · have := ih (insertAssoc acc pk ad) ⟨r, hr, hb⟩
                simpa [load_channel_peers_go, hpk, haddr] using this

theorem load_channel_peers_go_ok {α β : Type} [DecidableEq α]
    (parsePk : String → Option α) (parseAddr : String → Option β)
    (rows : List ChannelPeerRow) (acc : List (α × β))
    (hgood : ∀ row ∈ rows,
      (parsePk row.public_key).isSome ∧ (parseAddr row.socket_addr).isSome) :
    ∃ m, load_channel_peers_go parsePk parseAddr rows acc = Except.ok m := by
  induction rows generalizing acc with
  | nil => exact ⟨acc, rfl⟩
  | cons row rest ih =>
      have hrow := hgood row (List.mem_cons_self _ _)
      cases hpk : parsePk row.public_key with
      | none => rw [hpk] at hrow; simp at hrow
      | some pk =>
          cases haddr : parseAddr row.socket_addr with
          | none => rw [haddr] at hrow; simp at hrow
          | some ad =>
              have := ih (insertAssoc acc pk ad)
                (fun r hr => hgood r (List.mem_cons_of_mem _ hr))
              simpa [load_channel_peers_go, hpk, haddr] using this

/-- C10.  Peer bulk-load is all-or-nothing: a single row whose public key
or socket address fails to parse makes `load_channel_peers` return
`InvalidPeerInfo` and no map at all, while a store whose every row parses
loads successfully — malformed peer rows are not skipped the way
channel-id and revoked-token rows are. -/
theorem load_channel_peers_all_or_nothing {α β : Type} [DecidableEq α]
    (parsePk : String → Option α) (parseAddr : String → Option β)
    (st : DbState) :
    ((∃ row ∈ st.peerRows,
        parsePk row.public_key = none ∨ parseAddr row.socket_addr = none) →
      ∃ msg, load_channel_peers parsePk parseAddr st true =
        Except.error (APIError.InvalidPeerInfo msg)) ∧
    ((∀ row ∈ st.peerRows,
        (parsePk row.public_key).isSome ∧ (parseAddr row.socket_addr).isSome) →
      ∃ m, load_channel_peers parsePk parseAddr st true = Except.ok m) := by
  constructor
  · intro hbad
    have := load_channel_peers_go_error parsePk parseAddr st.peerRows [] hbad
    simpa [load_channel_peers] using this
  · intro hgood
    have := load_channel_peers_go_ok parsePk parseAddr st.peerRows [] hgood
    simpa [load_channel_peers] using this

/-- Witness for C10: with hex decoding as the key parser, a store holding
one row whose public key is not hex makes the whole load fail with
`InvalidPeerInfo`. -/
theorem load_channel_peers_all_or_nothing_witness :
    ∃ msg, load_channel_peers hex_str_to_vec (fun s => some s)
      { DbState.empty with
        peerRows := [⟨1, "zz", "127.0.0.1:9735"⟩], peerNextId := 2 } true =
      Except.error (APIError.InvalidPeerInfo msg) :=
  (load_channel_peers_all_or_nothing hex_str_to_vec (fun s => some s)
    { DbState.empty with
      peerRows := [⟨1, "zz", "127.0.0.1:9735"⟩], peerNextId := 2 }).1
    ⟨⟨1, "zz", "127.0.0.1:9735"⟩, by simp, Or.inl (by decide)⟩

/-- Modelled from the spec: the encryption collaborator of §4.5 / §6(b)
(the magic-crypt crate, outside this repository) exposes
`encrypt(password, bytes) -> bytes` and
`decrypt(password, bytes) -> Result<bytes, WrongKey>`.  A ciphertext is
opaque, remembers which key sealed it, and decryption with any other key
fails with the distinguishable wrong-key error. -/
structure Ciphertext where
  sealedWith : String
  plaintext : String
  deriving Repr, DecidableEq

/-- Modelled from the spec: `MagicCrypt::encrypt_str_to_base64`. -/
def encrypt_str_to_base64 (password plaintext : String) : Ciphertext :=
  ⟨password, plaintext⟩

/-- Modelled from the spec: `MagicCrypt::decrypt_base64_to_string`, which
fails exactly when the key differs from the sealing key. -/
def decrypt_base64_to_string (password : String) (c : Ciphertext) : Option String :=
  if c.sealedWith = password then some c.plaintext else none

/-- The rusqlite-backed mnemonic table of `src/db.rs`: rows carry their
auto-increment id and the encrypted payload; `nextId` is the next rowid. -/
structure RlnDb where
  rows : List (Nat × Ciphertext)
  nextId : Nat
  deriving Repr, DecidableEq

/-- The state produced by `init_db` (db.rs lines 40-67): an empty mnemonic
table whose first insert will receive rowid 1. -/
def RlnDb.init : RlnDb := ⟨[], 1⟩

/-- States reachable through `init_db` and `save_encrypted_mnemonic`: the
table is empty with the rowid counter at 1, or holds exactly the row with
id 1. -/
def RlnDbWf (db : RlnDb) : Prop :=
  (db.rows = [] ∧ db.nextId = 1) ∨ ∃ c, db.rows = [(1, c)]

/-- `is_initialized_inner` (db.rs lines 73-89): a row with id 1 exists. -/
def is_initialized_inner (db : RlnDb) : Bool :=
  (db.rows.find? (fun r => r.1 = 1)).isSome

/-- `save_encrypted_mnemonic` (db.rs lines 98-131): encrypt the phrase
with the password, then update the id-1 row if initialized, else insert a
fresh row. -/
def save_encrypted_mnemonic (db : RlnDb) (password mnemonic_str : String)
    (execOk : Bool) : Except APIError Unit × RlnDb :=
  let encrypted_mnemonic := encrypt_str_to_base64 password mnemonic_str
  if ¬execOk then
    (Except.error (APIError.Unexpected "Failed to save mnemonic"), db)
  else if is_initialized_inner db then
    (Except.ok (),
      { db with
        rows := db.rows.map
          (fun r => if r.1 = 1 then (r.1, encrypted_mnemonic) else r) })
  else
    (Except.ok (),
      { rows := db.rows ++ [(db.nextId, encrypted_mnemonic)],
        nextId := db.nextId + 1 })

/-- `get_mnemonic` (db.rs lines 133-158): select the id-1 row (no row:
`NotInitialized`), decrypt with the given password (failure:
`WrongPassword`), return the decrypted phrase. -/
def get_mnemonic (db : RlnDb) (password : String) (queryOk : Bool) :
    Except APIError String :=
  if ¬queryOk then
    Except.error (APIError.Unexpected "Database error")
  else
    match db.rows.find? (fun r => r.1 = 1) with
    | none => Except.error APIError.NotInitialized
    | some row =>
        match decrypt_base64_to_string password row.2 with
        | none => Except.error APIError.WrongPassword
        | some mnemonic_str => Except.ok mnemonic_str

/-- C8.  Wrong-password detection: saving a mnemonic under password `pA`
and reading it back under a different password `pB` yields precisely the
`WrongPassword` error — never a decoded wrong plaintext, never a generic
database error (the store is any state reachable from `init_db`). -/
theorem get_mnemonic_wrong_password (db : RlnDb) (m pA pB : String)
    (hwf : RlnDbWf db) (hne : pA ≠ pB) :
    (save_encrypted_mnemonic db pA m true).1 = Except.ok () ∧
    get_mnemonic (save_encrypted_mnemonic db pA m true).2 pB true =
      Except.error APIError.WrongPassword := by
  rcases hwf with ⟨hrows, hnext⟩ | ⟨c, hrows⟩
  · constructor
    · simp [save_encrypted_mnemonic, is_initialized_inner, hrows]
    · simp [save_encrypted_mnemonic, is_initialized_inner, hrows, hnext,
        get_mnemonic, List.find?_cons, decrypt_base64_to_string,
        encrypt_str_to_base64, hne]
  · constructor
    · simp [save_encrypted_mnemonic, is_initialized_inner, hrows, List.find?_cons]
    · simp [save_encrypted_mnemonic, is_initialized_inner, hrows,
        get_mnemonic, List.find?_cons, decrypt_base64_to_string,
        encrypt_str_to_base64, hne]

/-- Witness for C8: a fresh store, password A to save, password B to
read. -/
theorem get_mnemonic_wrong_password_witness :
    get_mnemonic
      (save_encrypted_mnemonic RlnDb.init "A"
        "abandon abandon abandon about" true).2 "B" true =
      Except.error APIError.WrongPassword :=
  (get_mnemonic_wrong_password RlnDb.init "abandon abandon abandon about"
    "A" "B" (Or.inl ⟨rfl, rfl⟩) (by decide)).2

/-- `DatabaseManager::save_channel_id` (database.rs lines 433-473):
hex-encode both 32-byte ids, look the temporary id up, update the existing
row in place or insert fresh. -/
def save_channel_id (st : DbState) (temporary_channel_id channel_id : List Nat)
    (findOk writeOk : Bool) : Except APIError Unit × DbState :=
  let temp_id_hex := hex_str temporary_channel_id
  let chan_id_hex := hex_str channel_id
  if ¬findOk then
    (Except.error (APIError.DatabaseError "find failed"), st)
  else
    match st.channelIdsRows.find? (fun r => r.temporary_channel_id = temp_id_hex) with
    | some _ =>
        if ¬writeOk then
          (Except.error (APIError.DatabaseError "update failed"), st)
        else
          (Except.ok (),
            { st with
              channelIdsRows := st.channelIdsRows.map
                (fun r =>
                  if r.temporary_channel_id = temp_id_hex then
                    { r with channel_id := chan_id_hex }
                  else r) })
    | none =>
        if ¬writeOk then
          (Except.error (APIError.DatabaseError "insert failed"), st)
        else
          (Except.ok (),
            { st with
              channelIdsRows := st.channelIdsRows ++
                [⟨st.channelIdsNextId, temp_id_hex, chan_id_hex⟩],
              channelIdsNextId := st.channelIdsNextId + 1 })

/-- The legacy `channel_ids` file as seen by the migrator: absent, or
present with content that either decodes to a list of 32-byte id pairs or
is corrupt. -/
def LegacyChannelIdsFile : Type :=
  Option (Option (List (List Nat × List Nat)))

/-- `read_channel_ids_info` (disk.rs): open the file and decode it;
any failure — missing or corrupt — yields the empty default map. -/
def read_channel_ids_info (file : LegacyChannelIdsFile) :
    List (List Nat × List Nat) :=
  match file with
  | some (some pairs) => pairs
  | _ => []

/-- The migration loop of `migrate_channel_ids_from_file` (database.rs
lines 563-565): each mapping is saved in order, the first failing save
aborts with its error.  `findOk` and `writeOk` give the success of the
backend statements of the save at each index. -/
def saveAllChannelIds (st : DbState) (pairs : List (List Nat × List Nat))
    (findOk writeOk : Nat → Bool) (i : Nat) : Except APIError Unit × DbState :=
  match pairs with
  | [] => (Except.ok (), st)
  | p :: rest =>
      match save_channel_id st p.1 p.2 (findOk i) (writeOk i) with
      | (Except.error e, st') => (Except.error e, st')
      | (Except.ok _, st') => saveAllChannelIds st' rest findOk writeOk (i + 1)

/-- `DatabaseManager::migrate_channel_ids_from_file` (database.rs lines
546-579): no file means success without action; otherwise every decoded
mapping is saved, a save failure propagates with the file left in place,
and only after the loop does `remove_file` run — whose own failure is
tolerated (logged, not an error). -/
def migrate_channel_ids_from_file (st : DbState) (file : LegacyChannelIdsFile)
    (findOk writeOk : Nat → Bool) (removeOk : Bool) :
    Except APIError Unit × DbState × LegacyChannelIdsFile :=
  match file with
  | none => (Except.ok (), st, none)
  | some content =>
      match saveAllChannelIds st (read_channel_ids_info (some content))
          findOk writeOk 0 with
      | (Except.error e, st') => (Except.error e, st', some content)
      | (Except.ok _, st') =>
          if removeOk then (Except.ok (), st', none)
          else (Except.ok (), st', some content)

/-- C6.  The migration deletes the legacy file only after every mapping has
been saved: an error outcome (in particular any failing individual save,
whose error is the one returned) leaves the file exactly as it was, and
the file ends up removed only when the whole save loop succeeded, with the
resulting store being the loop's final store. -/
theorem migrate_channel_ids_deletes_file_last (st : DbState)
    (file : LegacyChannelIdsFile) (findOk writeOk : Nat → Bool)
    (removeOk : Bool) :
    (∀ e, (migrate_channel_ids_from_file st file findOk writeOk removeOk).1 =
        Except.error e →
      (migrate_channel_ids_from_file st file findOk writeOk removeOk).2.2 = file ∧
      (saveAllChannelIds st (read_channel_ids_info file) findOk writeOk 0).1 =
        Except.error e) ∧
    ((migrate_channel_ids_from_file st file findOk writeOk removeOk).2.2 = none →
      file = none ∨
      ∃ st', saveAllChannelIds st (read_channel_ids_info file) findOk writeOk 0 =
          (Except.ok (), st') ∧
        (migrate_channel_ids_from_file st file findOk writeOk removeOk).1 =
          Except.ok () ∧
        (migrate_channel_ids_from_file st file findOk writeOk removeOk).2.1 = st') := by
  cases file with
  | none =>
      refine ⟨?_, fun _ => Or.inl rfl⟩
      intro e he
      cases he
  | some content =>
      rcases hloop : saveAllChannelIds st (read_channel_ids_info (some content))
          findOk writeOk 0 with ⟨res, st'⟩
      cases res with
      | error e0 =>
          constructor
          · intro e he
            simp only [migrate_channel_ids_from_file, hloop] at he
            cases he
            constructor
            · simp only [migrate_channel_ids_from_file, hloop]
            · rfl
          · intro hnone
            simp only [migrate_channel_ids_from_file, hloop] at hnone
            cases hnone
      | ok u =>
          cases u
          constructor
          · intro e he
            simp only [migrate_channel_ids_from_file, hloop] at he
            cases removeOk <;> simp at he
          · intro _
            refine Or.inr ⟨st', ?_, ?_, ?_⟩
            · rfl
            · simp only [migrate_channel_ids_from_file, hloop]
              cases removeOk <;> simp
            · simp only [migrate_channel_ids_from_file, hloop]
              cases removeOk <;> simp

/-- Witness for C6: a one-mapping legacy file whose save fails at the
insert leaves the file in place and propagates the database error. -/
theorem migrate_channel_ids_deletes_file_last_witness :
    (migrate_channel_ids_from_file DbState.empty
        (some (some [([1], [2])])) (fun _ => true) (fun _ => false) true).2.2 =
      some (some [([1], [2])]) :=
  ((migrate_channel_ids_deletes_file_last DbState.empty
      (some (some [([1], [2])])) (fun _ => true) (fun _ => false) true).1
    (APIError.DatabaseError "insert failed") rfl).1

/-- Direct store lookup of a configuration key, bypassing the cache:
`RgbConfig::find().filter(key).one` followed by `.map(|c| c.value)`. -/
def storeLookup (db : DbState) (key : String) : Option String :=
  (db.configRows.find? (fun r => r.key = key)).map (fun r => r.value)

/-- The cache never contradicts the store: every cached entry, present or
negative, equals the store lookup of its key.  Holds for the empty cache
and is preserved by every cache update in `database.rs`. -/
def CoherentWith (cache : List (String × Option String)) (db : DbState) : Prop :=
  ∀ k ov, lookupAssoc cache k = some ov → ov = storeLookup db k

/-- The seven configuration keys handled by `sync_rgb_config_to_files`
(database.rs lines 586-600); each key doubles as its mirror file name. -/
def rgbConfigKeys : List String :=
  ["indexer_url", "proxy_endpoint", "bitcoin_network", "wallet_fingerprint",
   "wallet_account_xpub_colored", "wallet_account_xpub_vanilla",
   "wallet_master_fingerprint"]

/-- The load phase of `sync_rgb_config_to_files` (database.rs lines
594-600): every key is loaded through the cache in order, the first
failure aborting the whole sync. -/
def loadMany (m : DatabaseManager) (keys : List String) (findOk : Bool) :
    Except APIError (List (String × Option String)) × DatabaseManager :=
  match keys with
  | [] => (Except.ok [], m)
  | k :: rest =>
      match load_rgb_config m k findOk with
      | (Except.error e, m1, _) => (Except.error e, m1)
      | (Except.ok v, m1, _) =>
          match loadMany m1 rest findOk with
          | (Except.error e, m2) => (Except.error e, m2)
          | (Except.ok vs, m2) => (Except.ok ((k, v) :: vs), m2)

/-- The write phase of `sync_rgb_config_to_files` (database.rs lines
602-642): a present value is written to its file, truncating any previous
content (`fs::write`); an absent value leaves the file untouched. -/
def writeMany :
    List (String × String) → List (String × Option String) → List (String × String)
  | fs, [] => fs
  | fs, (_, none) :: rest => writeMany fs rest
  | fs, (k, some v) :: rest => writeMany (insertAssoc fs k v) rest

/-- `DatabaseManager::sync_rgb_config_to_files` (database.rs lines
585-645): load all seven keys, then write each present value to its
well-known file. -/
def sync_rgb_config_to_files (m : DatabaseManager) (fs : List (String × String))
    (findOk : Bool) :
    Except APIError Unit × DatabaseManager × List (String × String) :=
  match loadMany m rgbConfigKeys findOk with
  | (Except.error e, m1) => (Except.error e, m1, fs)
  | (Except.ok pairs, m1) => (Except.ok (), m1, writeMany fs pairs)

theorem load_rgb_config_hit (m : DatabaseManager) (k : String)
    (ov : Option String) (findOk : Bool)
    (hl : lookupAssoc m.rgb_config_cache k = some ov) :
    load_rgb_config m k findOk = (Except.ok ov, m, false) := by
  simp [load_rgb_config, hl]

theorem load_rgb_config_miss (m : DatabaseManager) (k : String)
    (hl : lookupAssoc m.rgb_config_cache k = none) :
    load_rgb_config m k true =
      (Except.ok (storeLookup m.db k),
       { m with rgb_config_cache :=
          insertAssoc m.rgb_config_cache k (storeLookup m.db k) },
       true) := by
  simp [load_rgb_config, hl, storeLookup]

theorem load_rgb_config_coherent (m : DatabaseManager) (k : String)
    (hco : CoherentWith m.rgb_config_cache m.db) :
    ∃ m' b, load_rgb_config m k true = (Except.ok (storeLookup m.db k), m', b) ∧
      m'.db = m.db ∧ CoherentWith m'.rgb_config_cache m'.db := by
  cases hl : lookupAssoc m.rgb_config_cache k with
  | some ov =>
      refine ⟨m, false, ?_, rfl, hco⟩
      rw [load_rgb_config_hit m k ov true hl, hco k ov hl]
  | none =>
      refine ⟨_, true, load_rgb_config_miss m k hl, rfl, ?_⟩
      intro k' ov' hl'
      by_cases hk : k = k'
      · subst hk
        rw [lookupAssoc_insertAssoc_self] at hl'
        exact (Option.some_inj.mp hl').symm
      · rw [lookupAssoc_insertAssoc_ne _ _ _ _ hk] at hl'
        exact hco k' ov' hl'

theorem loadMany_coherent (keys : List String) (m : DatabaseManager)
    (hco : CoherentWith m.rgb_config_cache m.db) :
    ∃ m', loadMany m keys true =
        (Except.ok (keys.map (fun k => (k, storeLookup m.db k))), m') ∧
      m'.db = m.db ∧ CoherentWith m'.rgb_config_cache m'.db := by
  induction keys generalizing m with
  | nil => exact ⟨m, rfl, rfl, hco⟩
  | cons k rest ih =>
      obtain ⟨m1, b, hload, hdb1, hco1⟩ := load_rgb_config_coherent m k hco
      obtain ⟨m2, hrest, hdb2, hco2⟩ := ih m1 hco1
      refine ⟨m2, ?_, hdb2.trans hdb1, hco2⟩
      simp only [loadMany, hload, hrest, hdb1, List.map_cons]

theorem lookupAssoc_writeMany_not_mem (pairs : List (String × Option String))
    (fs : List (String × String)) (name : String)
    (h : ∀ p ∈ pairs, p.1 ≠ name) :
    lookupAssoc (writeMany fs pairs) name = lookupAssoc fs name := by
  induction pairs generalizing fs with
  | nil => rfl
  | cons p rest ih =>
      rcases p with ⟨k, ov⟩
      have hk : k ≠ name := h (k, ov) (List.mem_cons_self _ _)
      cases ov with
      | none =>
          exact ih fs (fun q hq => h q (List.mem_cons_of_mem _ hq))
      | some v =>
          show lookupAssoc (writeMany (insertAssoc fs k v) rest) name = _
          rw [ih (insertAssoc fs k v) (fun q hq => h q (List.mem_cons_of_mem _ hq))]
          exact lookupAssoc_insertAssoc_ne fs k name v hk

theorem lookupAssoc_writeMany_some (pairs : List (String × Option String))
    (name v : String) :
    ∀ fs, (name, some v) ∈ pairs →
      pairs.Pairwise (fun a b => a.1 ≠ b.1) →
      lookupAssoc (writeMany fs pairs) name = some v := by
  induction pairs with
  | nil => intro fs hmem _; cases hmem
  | cons p rest ih =>
      intro fs hmem hdist
      rw [List.pairwise_cons] at hdist
      rcases List.mem_cons.mp hmem with hp | hp
      · subst hp
        have hrest : ∀ q ∈ rest, q.1 ≠ name :=
          fun q hq => Ne.symm (hdist.1 q hq)
        show lookupAssoc (writeMany (insertAssoc fs name v) rest) name = some v
        rw [lookupAssoc_writeMany_not_mem rest _ name hrest]
        exact lookupAssoc_insertAssoc_self fs name v
      · rcases p with ⟨k, ov⟩
        cases ov with
        | none =>
            show lookupAssoc (writeMany fs rest) name = some v
            exact ih fs hp hdist.2
        | some w =>
            show lookupAssoc (writeMany (insertAssoc fs k w) rest) name = some v
            exact ih (insertAssoc fs k w) hp hdist.2

theorem lookupAssoc_writeMany_none_entry (pairs : List (String × Option String))
    (name : String) :
    ∀ fs, (name, (none : Option String)) ∈ pairs →
      pairs.Pairwise (fun a b => a.1 ≠ b.1) →
      lookupAssoc (writeMany fs pairs) name = lookupAssoc fs name := by
  induction pairs with
  | nil => intro fs hmem _; cases hmem
  | cons p rest ih =>
      intro fs hmem hdist
      rw [List.pairwise_cons] at hdist
      rcases List.mem_cons.mp hmem with hp | hp
      · subst hp
        have hrest : ∀ q ∈ rest, q.1 ≠ name :=
          fun q hq => Ne.symm (hdist.1 q hq)
        show lookupAssoc (writeMany fs rest) name = lookupAssoc fs name
        exact lookupAssoc_writeMany_not_mem rest fs name hrest
      · rcases p with ⟨k, ov⟩
        cases ov with
        | none =>
            show lookupAssoc (writeMany fs rest) name = lookupAssoc fs name
            exact ih fs hp hdist.2
        | some w =>
            have hk : k ≠ name := by
              intro hkn
              subst hkn
              exact (hdist.1 (k, none) hp) rfl
            show lookupAssoc (writeMany (insertAssoc fs k w) rest) name =
              lookupAssoc fs name
            rw [ih (insertAssoc fs k w) hp hdist.2]
            exact lookupAssoc_insertAssoc_ne fs k name w hk

theorem writeMany_all_none (pairs : List (String × Option String)) :
    ∀ fs, (∀ p ∈ pairs, p.2 = none) → writeMany fs pairs = fs := by
  induction pairs with
  | nil => intro fs _; rfl
  | cons p rest ih =>
      intro fs hall
      rcases p with ⟨k, ov⟩
      have hhead := hall (k, ov) (List.mem_cons_self _ _)
      cases ov with
      | none => exact ih fs (fun q hq => hall q (List.mem_cons_of_mem _ hq))
      | some w => simp at hhead

/-- C7.  Mirror sync is overwrite-and-skip: with a cache that agrees with
the store, sync succeeds; every handled key present in the store ends up
in its file with exactly the stored value (overwriting prior content),
every absent key leaves its file untouched, no file outside the seven
handled names is touched, and a store with none of the keys set leaves
the file system exactly as it was — zero files created. -/
theorem sync_rgb_config_overwrite_and_skip (m : DatabaseManager)
    (fs : List (String × String))
    (hco : CoherentWith m.rgb_config_cache m.db) :
    (sync_rgb_config_to_files m fs true).1 = Except.ok () ∧
    (∀ key ∈ rgbConfigKeys, ∀ v, storeLookup m.db key = some v →
      lookupAssoc (sync_rgb_config_to_files m fs true).2.2 key = some v) ∧
    (∀ key ∈ rgbConfigKeys, storeLookup m.db key = none →
      lookupAssoc (sync_rgb_config_to_files m fs true).2.2 key =
        lookupAssoc fs key) ∧
    (∀ name, name ∉ rgbConfigKeys →
      lookupAssoc (sync_rgb_config_to_files m fs true).2.2 name =
        lookupAssoc fs name) ∧
    ((∀ key ∈ rgbConfigKeys, storeLookup m.db key = none) →
      (sync_rgb_config_to_files m fs true).2.2 = fs) := by
  obtain ⟨m', hlm, hdb, hco'⟩ := loadMany_coherent rgbConfigKeys m hco
  have hsync : sync_rgb_config_to_files m fs true =
      (Except.ok (), m',
       writeMany fs (rgbConfigKeys.map (fun k => (k, storeLookup m.db k)))) := by
    simp only [sync_rgb_config_to_files, hlm]
  have hdistpairs :
      (rgbConfigKeys.map (fun k => (k, storeLookup m.db k))).Pairwise
        (fun a b => a.1 ≠ b.1) := by
    refine List.Pairwise.map _ (fun a b hab => ?_)
      (show rgbConfigKeys.Pairwise (fun a b => a ≠ b) by decide)
    simpa using hab
  refine ⟨by rw [hsync], ?_, ?_, ?_, ?_⟩
  · intro key hkey v hv
    rw [hsync]
    exact lookupAssoc_writeMany_some _ key v fs
      (List.mem_map.mpr ⟨key, hkey, by rw [hv]⟩) hdistpairs
  · intro key hkey hv
    rw [hsync]
    exact lookupAssoc_writeMany_none_entry _ key fs
      (List.mem_map.mpr ⟨key, hkey, by rw [hv]⟩) hdistpairs
  · intro name hname
    rw [hsync]
    refine lookupAssoc_writeMany_not_mem _ fs name ?_
    intro p hp
    rcases List.mem_map.mp hp with ⟨k, hk, hpk⟩
    subst hpk
    intro hkn
    have hkn2 : k = name := by simpa using hkn
    subst hkn2
    exact hname hk
  · intro hall
    rw [hsync]
    refine writeMany_all_none _ fs ?_
    intro p hp
    rcases List.mem_map.mp hp with ⟨k, hk, hpk⟩
    subst hpk
    exact hall k hk

/-- Witness for C7: a store holding only `indexer_url`, a pre-existing
mirror file for the absent `bitcoin_network` key, and an empty cache: the
synced file system has the indexer url written and the old file content
untouched. -/
theorem sync_rgb_config_overwrite_and_skip_witness :
    lookupAssoc (sync_rgb_config_to_files
      ⟨{ DbState.empty with
          configRows := [⟨1, "indexer_url", "127.0.0.1:50001"⟩],
          configNextId := 2 }, []⟩
      [("bitcoin_network", "old")] true).2.2 "indexer_url" =
        some "127.0.0.1:50001" ∧
    lookupAssoc (sync_rgb_config_to_files
      ⟨{ DbState.empty with
          configRows := [⟨1, "indexer_url", "127.0.0.1:50001"⟩],
          configNextId := 2 }, []⟩
      [("bitcoin_network", "old")] true).2.2 "bitcoin_network" = some "old" := by
  have h := sync_rgb_config_overwrite_and_skip
    ⟨{ DbState.empty with
        configRows := [⟨1, "indexer_url", "127.0.0.1:50001"⟩],
        configNextId := 2 }, []⟩
    [("bitcoin_network", "old")]
    (by intro k ov hl; cases hl)
  refine ⟨h.2.1 "indexer_url" (by decide) "127.0.0.1:50001" (by decide), ?_⟩
  exact (h.2.2.1 "bitcoin_network" (by decide) (by decide)).trans (by decide)

end RLN
